import Mathlib

/-!
Verification of the TidalCycles MCP server core (src/unnamed/part_006).

The embedding models, from the source:
  * the Channel State Store (a JS `Map` from channel id to `ChannelState`,
    insertion-ordered, as built in the `TidalMCPServer` constructor),
  * the Command History Log (`patternHistory`, an append-only array),
  * the request dispatcher operations `evalPattern`, `hush`, `silence`,
    `getState`/`getActive`, `solo`, `unsolo`, `getHistory`,
  * the file sink `writeToTidalFile` (full-replace `fs.writeFile`),
  * the GHCi process manager guard logic of `sendToGhci` / `startGhci`
    (`isGhciHealthy`, the `isReconnecting` mutual-exclusion flag), as a
    small-step transition system whose steps are the synchronous segments
    between the `await` suspension points of the source.
-/

namespace Tidal

/-- One record of the Channel State Store: `interface ChannelState`
    (channel, pattern, timestamp, active) from the source. -/
structure ChannelState where
  channel : String
  pattern : String
  timestamp : Nat
  active : Bool
deriving DecidableEq, Repr

/-- One record of the Command History Log: the element type of
    `patternHistory` ({channel, pattern, timestamp}). -/
structure HistoryEntry where
  channel : String
  pattern : String
  timestamp : Nat
deriving DecidableEq, Repr

/-- The Channel State Store: a JS `Map<string, ChannelState>`, modelled as an
    insertion-ordered association list (JS `Map` preserves insertion order;
    `set` on an existing key updates in place, otherwise appends). -/
abbrev ChannelMap := List (String × ChannelState)

/-- JS `Map.prototype.set`: replace in place when the key exists, append
    otherwise. -/
def jsMapSet (m : ChannelMap) (k : String) (v : ChannelState) : ChannelMap :=
  match m with
  | [] => [(k, v)]
  | (k0, v0) :: rest =>
      if k0 = k then (k, v) :: rest else (k0, v0) :: jsMapSet rest k v

/-- JS `Map.prototype.get`. -/
def jsMapGet (m : ChannelMap) (k : String) : Option ChannelState :=
  match m with
  | [] => none
  | (k0, v0) :: rest => if k0 = k then some v0 else jsMapGet rest k

/-- The fixed 9-member channel set, in the order the constructor inserts the
    records (`for (let i = 1; i <= 9; i++) this.channels.set("d" + i, ...)`). -/
def validChannels : List String :=
  ["d1", "d2", "d3", "d4", "d5", "d6", "d7", "d8", "d9"]

/-- The store built by the `TidalMCPServer` constructor: every channel
    present, empty pattern, timestamp 0, inactive. -/
def initChannels : ChannelMap :=
  validChannels.map (fun id => (id, ⟨id, "", 0, false⟩))

/-- The in-memory session state the dispatcher mutates: `channels` plus
    `patternHistory`. -/
structure ServerState where
  channels : ChannelMap
  patternHistory : List HistoryEntry
deriving DecidableEq, Repr

/-- State at process start. -/
def initState : ServerState := ⟨initChannels, []⟩

/-! ## Dispatcher operations (state effect)

Each definition is the state mutation performed by the corresponding private
method of `TidalMCPServer`, independent of the sink outcome: the source
mutates `channels` / `patternHistory` before awaiting the sink write and
never rolls back. -/

/-- State effect of `evalPattern(channel, pattern)`: `channels.set(channel,
    {channel, pattern, timestamp: Date.now(), active: true})` followed by
    `patternHistory.push({channel, pattern, timestamp: Date.now()})`.
    No validation of `channel` is performed by the source. -/
def evalPatternUpdate (s : ServerState) (channel pattern : String) (now : Nat) :
    ServerState :=
  { channels := jsMapSet s.channels channel ⟨channel, pattern, now, true⟩,
    patternHistory := s.patternHistory ++ [⟨channel, pattern, now⟩] }

/-- State effect of `hush()`: every record gets `active = false`,
    `pattern = ""` (keys, order and timestamps untouched). -/
def hushChannels (m : ChannelMap) : ChannelMap :=
  m.map (fun p => (p.1, { p.2 with active := false, pattern := "" }))

/-- `hush` on the full server state. -/
def hushState (s : ServerState) : ServerState :=
  { s with channels := hushChannels s.channels }

/-- State effect of `silence(channel)`: if the record exists, set
    `active = false`, `pattern = ""` in place; otherwise do nothing. -/
def silenceState (s : ServerState) (channel : String) : ServerState :=
  match jsMapGet s.channels channel with
  | some st =>
      { s with channels :=
          jsMapSet s.channels channel { st with active := false, pattern := "" } }
  | none => s

/-- `getState`'s active-channel listing:
    `Array.from(this.channels.values()).filter(c => c.active)` —
    the Map's values in insertion order, filtered on the active flag. -/
def getActive (m : ChannelMap) : List ChannelState :=
  (m.map Prod.snd).filter (fun c => c.active)

/-! ## Command History Log queries -/

/-- JS `Array.prototype.slice(start)` with a single (integer) argument:
    negative start counts from the end, clamped to 0; non-negative start is
    clamped to the length. -/
def jsSliceFrom {α : Type} (l : List α) (start : Int) : List α :=
  let len : Int := l.length
  let k : Int := if start < 0 then max (len + start) 0 else min start len
  l.drop k.toNat

/-- `getHistory(limit)`'s entry selection:
    `this.patternHistory.slice(-limit).reverse()`. -/
def getHistoryEntries (hist : List HistoryEntry) (limit : Int) :
    List HistoryEntry :=
  (jsSliceFrom hist (-limit)).reverse

/-- `getHistory` with the optional argument: `getHistory(limit: number = 10)`
    applies the default 10 when the argument is omitted. -/
def getHistoryEntriesOpt (hist : List HistoryEntry) (limit : Option Int) :
    List HistoryEntry :=
  getHistoryEntries hist (limit.getD 10)

/-! ## File sink -/

/-- `fs.writeFile`: the file's content afterwards is exactly the written
    content — a full replace of whatever was there before. -/
def fsWriteFile (_prev content : String) : String := content

/-- `fs.appendFile` (used only for the session log in the source; here for
    contrast with the full-replace sink). -/
def fsAppendFile (prev content : String) : String := prev ++ content

/-- The content `writeToTidalFile(code)` generates: the tool-name comment
    header, the ISO timestamp line, a blank line, the single command line. -/
def tidalFileContent (isoNow : String) (code : String) : String :=
  "-- TidalCycles MCP Server\n-- Auto-generated at " ++ isoNow ++ "\n\n"
    ++ code ++ "\n"

/-- `writeToTidalFile(code)`: builds `tidalFileContent` and replaces the
    configured file's content with it via `fs.writeFile`. -/
def writeToTidalFile (fileBefore : String) (isoNow code : String) : String :=
  fsWriteFile fileBefore (tidalFileContent isoNow code)

/-! ## The operation surface as a step function -/

/-- One inbound tool invocation (the seven operations of
    `setupToolHandlers`), with the arguments the handler extracts. -/
inductive Op where
  | evalOp (channel pattern : String) (now : Nat)
  | hushOp
  | silenceOp (channel : String)
  | getStateOp
  | soloOp (channel : String)
  | unsoloOp
  | getHistoryOp (limit : Option Int)
deriving DecidableEq, Repr

/-- The state effect of one operation: `evalPattern`, `hush` and `silence`
    mutate the store/history as in the source; `getState`, `solo`, `unsolo`
    and `getHistory` leave the in-memory state untouched. -/
def applyOp (s : ServerState) : Op → ServerState
  | .evalOp channel pattern now => evalPatternUpdate s channel pattern now
  | .hushOp => hushState s
  | .silenceOp channel => silenceState s channel
  | .getStateOp => s
  | .soloOp _ => s
  | .unsoloOp => s
  | .getHistoryOp _ => s

/-- Server state after a sequence of operations starting from the
    constructor's state. -/
def stateAfter (ops : List Op) : ServerState :=
  ops.foldl applyOp initState

/-- The textual command each mutating operation submits to the active sink
    (`fullPattern`, `"hush"`, `silenceCommand`, `soloPattern`,
    `unsoloCommand` in the source); `getState`/`getHistory` submit nothing. -/
def commandOf : Op → Option String
  | .evalOp channel pattern _ => some (channel ++ " $ " ++ pattern)
  | .hushOp => some "hush"
  | .silenceOp channel => some ("silence " ++ channel)
  | .getStateOp => none
  | .soloOp channel => some ("solo $ " ++ channel)
  | .unsoloOp => some "unsolo $ d1"
  | .getHistoryOp _ => none

/-- `true` when the operation's channel argument (if any) lies in the fixed
    d1..d9 set — what the tool schema's `enum` declares. -/
def Op.chanOk : Op → Bool
  | .evalOp channel _ _ => validChannels.contains channel
  | .silenceOp channel => validChannels.contains channel
  | .soloOp channel => validChannels.contains channel
  | _ => true

/-- `true` when an evaluate operation carries a nonempty pattern text
    (other operations vacuously). -/
def Op.patOk : Op → Bool
  | .evalOp _ pattern _ => pattern ≠ ""
  | _ => true

/-! ## evalPattern with its sink interaction

`evalPattern` logs, mutates the store, pushes history, and only then awaits
the sink write; a sink failure propagates to the dispatcher's catch block,
which answers with the text `Error: <message>` — the mutation stays. -/

/-- Outcome of the active sink's submit. -/
inductive SinkResult where
  | ok : SinkResult
  | err (msg : String) : SinkResult
deriving DecidableEq, Repr

/-- Observable steps of one `evalPattern` call, in execution order. -/
inductive EvalEvent where
  | stateUpdate (channel pattern : String)
  | historyAppend (channel pattern : String)
  | sinkWrite (cmd : String)
deriving DecidableEq, Repr

/-- Result of one `evalPattern` call: final in-memory state, the ordered
    observable events, the textual response and whether it is the
    dispatcher's error response. -/
structure EvalOutcome where
  state : ServerState
  events : List EvalEvent
  response : String
  isError : Bool
deriving DecidableEq, Repr

/-- `evalPattern(channel, pattern)` as executed by the dispatcher: update
    the store, append history, then submit `channel ++ " $ " ++ pattern` to
    the sink; on sink success answer the confirmation text, on sink failure
    answer `Error: <msg>` (the catch block in `setupToolHandlers`) with the
    mutation left in place. -/
def evalPattern (s : ServerState) (channel pattern : String) (now : Nat)
    (sink : SinkResult) : EvalOutcome :=
  let s1 := evalPatternUpdate s channel pattern now
  let fullPattern := channel ++ " $ " ++ pattern
  let events := [EvalEvent.stateUpdate channel pattern,
                 EvalEvent.historyAppend channel pattern,
                 EvalEvent.sinkWrite fullPattern]
  match sink with
  | .ok =>
      ⟨s1, events,
        "✓ Evaluated on " ++ channel ++ ":\n" ++ fullPattern
          ++ "\n\nPattern is now playing.", false⟩
  | .err msg => ⟨s1, events, "Error: " ++ msg, true⟩

/-! ## GHCi process manager: the reconnect guard

The synchronous segments of `sendToGhci` / `startGhci` between `await`
suspension points, as a step function on the manager's flags. -/

/-- The manager's observable flags plus a spawn counter (how many times
    `spawn` has been called), used to express "no second subprocess". -/
structure GhciState where
  streamAlive : Bool
  procPresent : Bool
  stdinPresent : Bool
  stdinDestroyed : Bool
  killed : Bool
  reconnecting : Bool
  spawnCount : Nat
deriving DecidableEq, Repr

/-- Manager state before any subprocess exists. -/
def ghciInit : GhciState :=
  ⟨false, false, false, false, false, false, 0⟩

/-- `isGhciHealthy()`: `ghciStreamAlive && !!ghciProcess &&
    !!ghciProcess.stdin && !ghciProcess.stdin.destroyed &&
    !ghciProcess.killed`. -/
def isGhciHealthy (g : GhciState) : Bool :=
  g.streamAlive && g.procPresent && g.stdinPresent && !g.stdinDestroyed
    && !g.killed

/-- How far one `sendToGhci` call gets in its synchronous prefix. -/
inductive SubmitOutcome where
  /-- healthy path (or `startGhci` early return): proceeds to the stdin
      write. -/
  | wrote
  /-- `throw new Error("GHCi is currently reconnecting, ...")`. -/
  | errReconnecting
  /-- took the reconnect path: `spawn` has happened, the call is suspended
      awaiting the init marker/timeout with `isReconnecting` still true. -/
  | beganReconnect
deriving DecidableEq, Repr

/-- The synchronous prefix of one `sendToGhci(code)` call:
    * healthy → go write (no flag changes);
    * unhealthy and `isReconnecting` → throw the reconnecting error;
    * unhealthy, guard free, but `ghciProcess && ghciStreamAlive` →
      `startGhci` early-returns without spawning and the write proceeds;
    * otherwise → set `isReconnecting`, kill any stale handle, `spawn` a
      fresh process (stdin piped, stream marked alive), then suspend
      awaiting initialization. -/
def submitStep (g : GhciState) : SubmitOutcome × GhciState :=
  if isGhciHealthy g then
    (.wrote, g)
  else if g.reconnecting then
    (.errReconnecting, g)
  else if g.procPresent && g.streamAlive then
    (.wrote, g)
  else
    (.beganReconnect,
      { streamAlive := true, procPresent := true, stdinPresent := true,
        stdinDestroyed := false, killed := false, reconnecting := true,
        spawnCount := g.spawnCount + 1 })

/-- The continuation of a suspended reconnect: the init promise resolves
    (marker seen or 10s timeout) and `sendToGhci` clears `isReconnecting`
    before writing. -/
def finishReconnect (g : GhciState) : GhciState :=
  { g with reconnecting := false }

/-- Asynchronous stdin-error / stdin-close callback: flips
    `ghciStreamAlive` to false. -/
def markStreamDead (g : GhciState) : GhciState :=
  { g with streamAlive := false }

/-- Asynchronous process-exit callback: flips `ghciStreamAlive` to false and
    clears `ghciProcess`. -/
def markProcExit (g : GhciState) : GhciState :=
  { g with streamAlive := false, procPresent := false }

/-- Manager states reachable from startup by interleaving submit calls,
    reconnect completions and the asynchronous failure callbacks. -/
inductive GhciReachable : GhciState → Prop where
  | init : GhciReachable ghciInit
  | submit (g : GhciState) (h : GhciReachable g) :
      GhciReachable (submitStep g).2
  | initDone (g : GhciState) (h : GhciReachable g) (hr : g.reconnecting = true) :
      GhciReachable (finishReconnect g)
  | streamDead (g : GhciState) (h : GhciReachable g) :
      GhciReachable (markStreamDead g)
  | procExit (g : GhciState) (h : GhciReachable g) :
      GhciReachable (markProcExit g)

/-- The manager state a first submit from `ghciInit` leaves behind while its
    reconnect is still awaiting the init marker: process freshly spawned,
    stream marked alive, `isReconnecting` still held. -/
def gMidReconnect : GhciState :=
  ⟨true, true, true, false, false, true, 1⟩

/-! ## Helper lemmas on the JS Map embedding -/

theorem jsMapGet_set_self (m : ChannelMap) (k : String) (v : ChannelState) :
    jsMapGet (jsMapSet m k v) k = some v := by
  induction m with
  | nil => simp [jsMapSet, jsMapGet]
  | cons hd tl ih =>
      by_cases h : hd.1 = k
      · simp [jsMapSet, jsMapGet, h]
      · simpa [jsMapSet, jsMapGet, h] using ih

theorem jsMapGet_set_ne (m : ChannelMap) (k : String) (v : ChannelState)
    (id : String) (h : k ≠ id) :
    jsMapGet (jsMapSet m k v) id = jsMapGet m id := by
  induction m with
  | nil => simp [jsMapSet, jsMapGet, h]
  | cons hd tl ih =>
      by_cases hk : hd.1 = k
      · subst hk
        simp [jsMapSet, jsMapGet, h]
      · by_cases hid : hd.1 = id
        · simp [jsMapSet, jsMapGet, hk, hid, Ne.symm h]
        · simpa [jsMapSet, jsMapGet, hk, hid] using ih

theorem countP_jsMapSet_ne (m : ChannelMap) (k : String) (v : ChannelState)
    (id : String) (h : k ≠ id) :
    (jsMapSet m k v).countP (fun p => p.1 == id)
      = m.countP (fun p => p.1 == id) := by
  induction m with
  | nil => simp [jsMapSet, List.countP_cons, h]
  | cons hd tl ih =>
      by_cases hk : hd.1 = k
      · subst hk
        simp [jsMapSet, List.countP_cons, h]
      · simp only [jsMapSet, if_neg hk, List.countP_cons, ih]

theorem countP_jsMapSet_self (m : ChannelMap) (k : String) (v : ChannelState)
    (h : m.countP (fun p => p.1 == k) = 1) :
    (jsMapSet m k v).countP (fun p => p.1 == k) = 1 := by
  induction m with
  | nil => simp at h
  | cons hd tl ih =>
      by_cases hk : hd.1 = k
      · simp only [jsMapSet, if_pos hk, List.countP_cons] at h ⊢
        simpa [hk] using h
      · simp only [jsMapSet, if_neg hk, List.countP_cons] at h ⊢
        have hb : (hd.1 == k) = false := by
          simpa using hk
        simp only [hb] at h ⊢
        simpa using ih (by simpa using h)

theorem keys_jsMapSet_mem (m : ChannelMap) (k : String) (v : ChannelState)
    (h : k ∈ m.map Prod.fst) :
    (jsMapSet m k v).map Prod.fst = m.map Prod.fst := by
  induction m with
  | nil => simp at h
  | cons hd tl ih =>
      by_cases hk : hd.1 = k
      · simp [jsMapSet, hk]
      · have htl : k ∈ tl.map Prod.fst := by
          rcases List.mem_map.mp h with ⟨p, hp, hfst⟩
          rcases List.mem_cons.mp hp with h1 | h1
          · exact absurd (h1 ▸ hfst) hk
          · exact List.mem_map.mpr ⟨p, h1, hfst⟩
        simp [jsMapSet, hk, ih htl]

theorem jsMapGet_mem_keys (m : ChannelMap) (k : String) (v : ChannelState)
    (h : jsMapGet m k = some v) : k ∈ m.map Prod.fst := by
  induction m with
  | nil => simp [jsMapGet] at h
  | cons hd tl ih =>
      by_cases hk : hd.1 = k
      · simp [hk]
      · simp only [jsMapGet, if_neg hk] at h
        simpa using Or.inr (ih h)

theorem keys_hushChannels (m : ChannelMap) :
    (hushChannels m).map Prod.fst = m.map Prod.fst := by
  induction m with
  | nil => rfl
  | cons hd tl ih =>
      simp only [hushChannels, List.map_cons] at ih ⊢
      rw [ih]

theorem countP_hushChannels (m : ChannelMap) (id : String) :
    (hushChannels m).countP (fun p => p.1 == id)
      = m.countP (fun p => p.1 == id) := by
  induction m with
  | nil => rfl
  | cons hd tl ih =>
      simp only [hushChannels, List.map_cons, List.countP_cons] at ih ⊢
      rw [ih]

theorem jsMapGet_hushChannels (m : ChannelMap) (id : String) :
    jsMapGet (hushChannels m) id
      = (jsMapGet m id).map
          (fun c => { c with active := false, pattern := "" }) := by
  induction m with
  | nil => rfl
  | cons hd tl ih =>
      by_cases hid : hd.1 = id
      · simp [hushChannels, jsMapGet, hid]
      · simpa [hushChannels, jsMapGet, hid] using ih

/-- Values-in-insertion-order filtered on a predicate agree with a
    key-ordered `filterMap` lookup, as long as the keys are duplicate-free. -/
theorem filter_values_eq_filterMap_keys (m : ChannelMap)
    (p : ChannelState → Bool) (hnd : (m.map Prod.fst).Nodup) :
    (m.map Prod.snd).filter p
      = (m.map Prod.fst).filterMap (fun k =>
          match jsMapGet m k with
          | some c => if p c then some c else none
          | none => none) := by
  induction m with
  | nil => rfl
  | cons hd tl ih =>
      have hnd' : (tl.map Prod.fst).Nodup := (List.nodup_cons.mp hnd).2
      have hhd : hd.1 ∉ tl.map Prod.fst := (List.nodup_cons.mp hnd).1
      have hcongr :
          (tl.map Prod.fst).filterMap (fun k =>
            match jsMapGet (hd :: tl) k with
            | some c => if p c then some c else none
            | none => none)
            = (tl.map Prod.fst).filterMap (fun k =>
                match jsMapGet tl k with
                | some c => if p c then some c else none
                | none => none) := by
        refine List.filterMap_congr (fun k hk => ?_)
        have hne : hd.1 ≠ k := fun h => hhd (h ▸ hk)
        simp [jsMapGet, hne]
      simp only [List.map_cons, List.filterMap_cons, List.filter_cons]
      rw [hcongr, ← ih hnd']
      simp only [jsMapGet, if_pos rfl]
      by_cases hp : p hd.2 <;> simp [hp]

/-! ## The Channel invariant (C2) -/

/-- The spec's Channel invariant, checked on the store: every valid
    identifier has exactly one record, and that record's active flag is
    false exactly when its pattern text is empty. -/
def storeInvariant (m : ChannelMap) : Bool :=
  validChannels.all (fun id =>
    (m.countP (fun p => p.1 == id) == 1)
      && match jsMapGet m id with
         | some c => (!c.active) == (c.pattern == "")
         | none => false)

theorem storeInvariant_evalUpdate (m : ChannelMap) (channel pattern : String)
    (now : Nat) (hpat : pattern ≠ "")
    (hinv : storeInvariant m = true) :
    storeInvariant (jsMapSet m channel ⟨channel, pattern, now, true⟩) = true := by
  simp only [storeInvariant, List.all_eq_true] at hinv ⊢
  intro id hid
  have h1 := hinv id hid
  rw [Bool.and_eq_true] at h1 ⊢
  refine ⟨?_, ?_⟩
  · by_cases hch : channel = id
    · subst hch
      have hcount : m.countP (fun p => p.1 == channel) = 1 := by
        simpa using h1.1
      simpa using countP_jsMapSet_self m channel _ hcount
    · rw [countP_jsMapSet_ne m channel _ id hch]
      exact h1.1
  · by_cases hch : channel = id
    · subst hch
      rw [jsMapGet_set_self]
      simpa using hpat
    · rw [jsMapGet_set_ne m channel _ id hch]
      exact h1.2

theorem storeInvariant_hush (m : ChannelMap)
    (hinv : storeInvariant m = true) :
    storeInvariant (hushChannels m) = true := by
  simp only [storeInvariant, List.all_eq_true] at hinv ⊢
  intro id hid
  have h1 := hinv id hid
  rw [Bool.and_eq_true] at h1 ⊢
  refine ⟨?_, ?_⟩
  · rw [countP_hushChannels]
    exact h1.1
  · rw [jsMapGet_hushChannels]
    rcases hg : jsMapGet m id with _ | c
    · rw [hg] at h1
      exact absurd h1.2 (by simp)
    · simp

theorem storeInvariant_silence (m : ChannelMap) (channel : String)
    (st : ChannelState) (hinv : storeInvariant m = true) :
    storeInvariant
      (jsMapSet m channel { st with active := false, pattern := "" }) = true := by
  simp only [storeInvariant, List.all_eq_true] at hinv ⊢
  intro id hid
  have h1 := hinv id hid
  rw [Bool.and_eq_true] at h1 ⊢
  refine ⟨?_, ?_⟩
  · by_cases hch : channel = id
    · subst hch
      have hcount : m.countP (fun p => p.1 == channel) = 1 := by
        simpa using h1.1
      simpa using countP_jsMapSet_self m channel _ hcount
    · rw [countP_jsMapSet_ne m channel _ id hch]
      exact h1.1
  · by_cases hch : channel = id
    · subst hch
      rw [jsMapGet_set_self]
      simp
    · rw [jsMapGet_set_ne m channel _ id hch]
      exact h1.2

theorem storeInvariant_applyOp (s : ServerState) (op : Op)
    (hpat : op.patOk = true) (hinv : storeInvariant s.channels = true) :
    storeInvariant (applyOp s op).channels = true := by
  cases op with
  | evalOp channel pattern now =>
      have hpat' : pattern ≠ "" := by
        simpa [Op.patOk] using hpat
      exact storeInvariant_evalUpdate s.channels channel pattern now hpat' hinv
  | hushOp => exact storeInvariant_hush s.channels hinv
  | silenceOp channel =>
      rcases hg : jsMapGet s.channels channel with _ | st
      · simpa [applyOp, silenceState, hg] using hinv
      · simpa [applyOp, silenceState, hg] using
          storeInvariant_silence s.channels channel st hinv
  | getStateOp => exact hinv
  | soloOp channel => exact hinv
  | unsoloOp => exact hinv
  | getHistoryOp limit => exact hinv

theorem storeInvariant_foldl (s : ServerState) (ops : List Op)
    (hpat : ∀ op ∈ ops, op.patOk = true)
    (hinv : storeInvariant s.channels = true) :
    storeInvariant (ops.foldl applyOp s).channels = true := by
  induction ops generalizing s with
  | nil => exact hinv
  | cons op ops ih =>
      exact ih (applyOp s op)
        (fun o ho => hpat o (List.mem_cons_of_mem _ ho))
        (storeInvariant_applyOp s op (hpat op (List.mem_cons_self _ _)) hinv)

/-! ## Keys of the store along reachable states (C7) -/

theorem keys_applyOp (s : ServerState) (op : Op)
    (hchan : op.chanOk = true)
    (hkeys : s.channels.map Prod.fst = validChannels) :
    (applyOp s op).channels.map Prod.fst = validChannels := by
  cases op with
  | evalOp channel pattern now =>
      have hmem : channel ∈ s.channels.map Prod.fst := by
        rw [hkeys]
        simpa [Op.chanOk] using hchan
      rw [applyOp, evalPatternUpdate]
      rw [keys_jsMapSet_mem s.channels channel _ hmem]
      exact hkeys
  | hushOp =>
      rw [applyOp, hushState]
      rw [keys_hushChannels]
      exact hkeys
  | silenceOp channel =>
      rcases hg : jsMapGet s.channels channel with _ | st
      · simpa [applyOp, silenceState, hg] using hkeys
      · have hmem : channel ∈ s.channels.map Prod.fst :=
          jsMapGet_mem_keys s.channels channel st hg
        simp only [applyOp, silenceState, hg]
        rw [keys_jsMapSet_mem s.channels channel _ hmem]
        exact hkeys
  | getStateOp => exact hkeys
  | soloOp channel => exact hkeys
  | unsoloOp => exact hkeys
  | getHistoryOp limit => exact hkeys

theorem keys_foldl (s : ServerState) (ops : List Op)
    (hchan : ∀ op ∈ ops, op.chanOk = true)
    (hkeys : s.channels.map Prod.fst = validChannels) :
    (ops.foldl applyOp s).channels.map Prod.fst = validChannels := by
  induction ops generalizing s with
  | nil => exact hkeys
  | cons op ops ih =>
      exact ih (applyOp s op)
        (fun o ho => hchan o (List.mem_cons_of_mem _ ho))
        (keys_applyOp s op (hchan op (List.mem_cons_self _ _)) hkeys)

/-! ## History along operation sequences (C6) -/

/-- The history entries a sequence of operations appends: one per evaluate
    call, in call order. -/
def evalEntries (ops : List Op) : List HistoryEntry :=
  ops.filterMap (fun op =>
    match op with
    | .evalOp channel pattern now => some ⟨channel, pattern, now⟩
    | _ => none)

theorem patternHistory_foldl (s : ServerState) (ops : List Op) :
    (ops.foldl applyOp s).patternHistory
      = s.patternHistory ++ evalEntries ops := by
  induction ops generalizing s with
  | nil => simp [evalEntries]
  | cons op ops ih =>
      rw [List.foldl_cons, ih]
      cases op <;>
        simp [applyOp, evalPatternUpdate, hushState, silenceState, evalEntries]
      case silenceOp channel =>
        rcases jsMapGet s.channels channel with _ | st <;> simp

theorem patternHistory_stateAfter (ops : List Op) :
    (stateAfter ops).patternHistory = evalEntries ops := by
  simpa [stateAfter, initState] using patternHistory_foldl initState ops

/-! ## Slice arithmetic for getHistory (C5, C6) -/

theorem jsSliceFrom_neg {α : Type} (l : List α) (k : Nat) (hk : 0 < k)
    (hle : k ≤ l.length) :
    jsSliceFrom l (-(k : Int)) = l.drop (l.length - k) := by
  have hcond : (-(k : Int)) < 0 := by omega
  simp only [jsSliceFrom, if_pos hcond]
  congr 1
  omega

theorem jsSliceFrom_zero {α : Type} (l : List α) :
    jsSliceFrom l 0 = l := by
  simp [jsSliceFrom]

theorem jsSliceFrom_nonneg {α : Type} (l : List α) (k : Nat) :
    jsSliceFrom l (k : Int) = l.drop k := by
  rcases le_or_lt k l.length with hle | hlt
  · simp only [jsSliceFrom]
    rw [if_neg (by omega)]
    congr 1
    omega
  · simp only [jsSliceFrom]
    rw [if_neg (by omega)]
    have h1 : (min (k : Int) l.length).toNat = l.length := by omega
    rw [h1, List.drop_length, List.drop_eq_nil_of_le (le_of_lt hlt)]

theorem hushChannels_idem (m : ChannelMap) :
    hushChannels (hushChannels m) = hushChannels m := by
  induction m with
  | nil => rfl
  | cons hd tl ih =>
      show _ :: hushChannels (hushChannels tl) = _ :: hushChannels tl
      rw [ih]

/-- Spec-side definition for the C7 refinement comparison, following the
    spec's words: "all channels where active=true, in a stable,
    deterministic order (channel-identifier order)" — look each valid
    identifier up in d1..d9 order and keep the active ones. -/
def getActiveById (m : ChannelMap) : List ChannelState :=
  validChannels.filterMap (fun k =>
    match jsMapGet m k with
    | some c => if c.active then some c else none
    | none => none)

/-! ## The claims -/

/-- C1: the claim says an evaluate whose channel lies outside the fixed set
    d1..d9 is rejected with a descriptive error before any state mutation or
    sink write. The dispatcher has no such check (the d1..d9 `enum` exists
    only in the advertised tool schema): at channel "d10" `evalPattern`
    runs, creates a fresh channel record, appends to the history, performs
    the sink write and returns the success response. -/
theorem C1_eval_unknown_channel_accepted :
    validChannels.contains "d10" = false
    ∧ (evalPattern initState "d10" "bd" 1 SinkResult.ok).isError = false
    ∧ jsMapGet (evalPattern initState "d10" "bd" 1 SinkResult.ok).state.channels
        "d10" = some ⟨"d10", "bd", 1, true⟩
    ∧ (evalPattern initState "d10" "bd" 1 SinkResult.ok).state.patternHistory
        = [⟨"d10", "bd", 1⟩]
    ∧ (evalPattern initState "d10" "bd" 1 SinkResult.ok).events.contains
        (EvalEvent.sinkWrite "d10 $ bd") = true := by
  refine ⟨by decide, rfl, by decide, by decide, by decide⟩

/-- C2 counterexample: evaluating the empty pattern on d1 is accepted and
    leaves d1's record with active = true while its pattern text is empty,
    so "active flag is false iff content is empty" fails on this reachable
    state. -/
theorem C2_counterexample :
    jsMapGet (stateAfter [Op.evalOp "d1" "" 0]).channels "d1"
        = some ⟨"d1", "", 0, true⟩
    ∧ storeInvariant (stateAfter [Op.evalOp "d1" "" 0]).channels = false := by
  refine ⟨by decide, by decide⟩

/-- C2 (amended): after initialization and after every operation sequence
    whose evaluate calls all carry a nonempty pattern, every valid
    identifier d1..d9 has exactly one Channel record, and that record's
    active flag is false iff its content is the empty string. (Unamended
    the claim fails when an evaluate submits the empty pattern: the record
    becomes active with empty content — see the counterexample.) -/
theorem C2_invariant_amended (ops : List Op)
    (hpat : ∀ op ∈ ops, op.patOk = true) :
    storeInvariant (stateAfter ops).channels = true :=
  storeInvariant_foldl initState ops hpat (by decide)

/-- C2 witness: a concrete operation sequence with nonempty patterns. -/
theorem C2_witness :
    storeInvariant (stateAfter
      [Op.evalOp "d3" "bd sn" 1, Op.silenceOp "d3", Op.hushOp,
       Op.evalOp "d7" "arpy" 2]).channels = true :=
  C2_invariant_amended _ (by decide)

/-- C3: for every evaluate on a valid channel, the channel-state update and
    the history append occur before the sink write in the call's execution
    order, and when the sink write fails the dispatcher answers with the
    error text while the already-applied update and append stay in place. -/
theorem C3_optimistic_update (s : ServerState) (channel pattern : String)
    (now : Nat) (hchan : channel ∈ validChannels) :
    (∀ sink, (evalPattern s channel pattern now sink).state
        = evalPatternUpdate s channel pattern now
      ∧ (evalPattern s channel pattern now sink).events
        = [EvalEvent.stateUpdate channel pattern,
           EvalEvent.historyAppend channel pattern,
           EvalEvent.sinkWrite (channel ++ " $ " ++ pattern)])
    ∧ ∀ msg,
        (evalPattern s channel pattern now (SinkResult.err msg)).isError = true
        ∧ (evalPattern s channel pattern now (SinkResult.err msg)).response
            = "Error: " ++ msg := by
  refine ⟨fun sink => ?_, fun msg => ⟨rfl, rfl⟩⟩
  cases sink <;> exact ⟨rfl, rfl⟩

/-- C3 witness: a failing file-sink write on d1 reports the error yet the
    store update and history append are kept. -/
theorem C3_witness :
    (evalPattern initState "d1" "bd" 0 (SinkResult.err "EACCES")).isError = true
    ∧ (evalPattern initState "d1" "bd" 0 (SinkResult.err "EACCES")).state
        = evalPatternUpdate initState "d1" "bd" 0 :=
  ⟨((C3_optimistic_update initState "d1" "bd" 0 (by decide)).2 "EACCES").1,
   ((C3_optimistic_update initState "d1" "bd" 0
      (by decide)).1 (SinkResult.err "EACCES")).1⟩

/-- C4 counterexample: the first submit from the unstarted manager takes the
    reconnect path and suspends awaiting initialization, leaving the
    reachable state `gMidReconnect` in which the guard is still held but
    the freshly spawned process already passes the health check; a submit
    arriving there proceeds straight to the write instead of failing with
    the "currently reconnecting" error. -/
theorem C4_counterexample :
    GhciReachable gMidReconnect
    ∧ gMidReconnect.reconnecting = true
    ∧ (submitStep gMidReconnect).1 = SubmitOutcome.wrote
    ∧ (submitStep gMidReconnect).1 ≠ SubmitOutcome.errReconnecting := by
  refine ⟨?_, rfl, by decide, by decide⟩
  have h := GhciReachable.submit ghciInit GhciReachable.init
  have he : (submitStep ghciInit).2 = gMidReconnect := by decide
  rw [he] at h
  exact h

/-- C4 (amended): a submit call arriving while the reconnecting guard is
    held and the health check fails gets the fail-fast "currently
    reconnecting" error, and no submit arriving while the guard is held
    ever spawns a subprocess, so overlapping submits spawn at most one
    process. (As stated the claim fails: during the suspended part of a
    reconnect the fresh process already passes the health check, so such a
    submit writes instead of erroring — see the counterexample.) -/
theorem C4_guard_amended (g : GhciState) (hr : g.reconnecting = true) :
    (isGhciHealthy g = false →
      submitStep g = (SubmitOutcome.errReconnecting, g))
    ∧ (submitStep g).2.spawnCount = g.spawnCount := by
  by_cases hh : isGhciHealthy g = true
  · refine ⟨fun hcontra => ?_, by simp [submitStep, hh]⟩
    rw [hh] at hcontra
    cases hcontra
  · have hh' : isGhciHealthy g = false := by
      cases hhealth : isGhciHealthy g
      · rfl
      · exact absurd hhealth hh
    refine ⟨fun _ => ?_, ?_⟩
    · simp [submitStep, hh', hr]
    · simp [submitStep, hh', hr]

/-- C4 witness: a degraded manager (nothing alive) with the guard held
    fails fast without touching the spawn count. -/
theorem C4_witness :
    submitStep ⟨false, false, false, false, false, true, 0⟩
      = (SubmitOutcome.errReconnecting,
          ⟨false, false, false, false, false, true, 0⟩) :=
  (C4_guard_amended ⟨false, false, false, false, false, true, 0⟩ rfl).1
    (by decide)

/-- C5 counterexample: `slice(-limit)` with limit 0 is `slice(0)`, the whole
    array: with one entry logged, limit 0 returns that entry rather than the
    empty sequence; limit -1 on a two-entry log also returns an entry. -/
theorem C5_counterexample :
    getHistoryEntries [⟨"d1", "bd", 0⟩] 0 = [⟨"d1", "bd", 0⟩]
    ∧ getHistoryEntries [⟨"d1", "bd", 0⟩] 0 ≠ []
    ∧ getHistoryEntries [⟨"d1", "bd", 0⟩, ⟨"d2", "sn", 1⟩] (-1)
        = [⟨"d2", "sn", 1⟩] := by
  refine ⟨by decide, by decide, by decide⟩

/-- C5 (amended): the history query never crashes on a non-positive limit,
    but instead of "no entries": limit 0 returns all entries
    most-recent-first, and limit -k returns all but the k oldest entries
    most-recent-first. -/
theorem C5_nonpositive_limit_amended (hist : List HistoryEntry) (k : Nat) :
    getHistoryEntries hist 0 = hist.reverse
    ∧ getHistoryEntries hist (-(k : Int)) = (hist.drop k).reverse := by
  constructor
  · simp only [getHistoryEntries, neg_zero, jsSliceFrom_zero]
  · simp only [getHistoryEntries, neg_neg]
    rw [jsSliceFrom_nonneg]

/-- C6: after any operation sequence, querying the history with limit k for
    0 < k ≤ number of appended entries returns exactly the last k appended
    entries most-recent-first, and an omitted limit defaults to 10. -/
theorem C6_history_recent :
    (∀ (ops : List Op) (k : Nat), 0 < k → k ≤ (evalEntries ops).length →
      getHistoryEntries (stateAfter ops).patternHistory (k : Int)
        = ((evalEntries ops).drop ((evalEntries ops).length - k)).reverse)
    ∧ ∀ hist, getHistoryEntriesOpt hist none = getHistoryEntries hist 10 := by
  constructor
  · intro ops k hk hle
    rw [patternHistory_stateAfter, getHistoryEntries,
      jsSliceFrom_neg _ k hk hle]
  · intro hist
    rfl

/-- C6 witness: three evaluates, limit 2 → the last two entries,
    most-recent first. -/
theorem C6_witness :
    getHistoryEntries
      (stateAfter [Op.evalOp "d1" "bd" 0, Op.evalOp "d2" "sn" 1,
        Op.evalOp "d1" "cp" 2]).patternHistory ((2 : Nat) : Int)
      = [⟨"d1", "cp", 2⟩, ⟨"d2", "sn", 1⟩] := by
  rw [C6_history_recent.1
    [Op.evalOp "d1" "bd" 0, Op.evalOp "d2" "sn" 1, Op.evalOp "d1" "cp" 2]
    2 (by decide) (by decide)]
  decide

/-- C7: on every state reachable by schema-conforming operations (channel
    arguments drawn from d1..d9, as the advertised tool schema requires),
    `getActive` lists exactly the channels with active = true, in
    channel-identifier order d1..d9, independent of the order in which
    they were activated. -/
theorem C7_getActive_ordered (ops : List Op)
    (hchan : ∀ op ∈ ops, op.chanOk = true) :
    getActive (stateAfter ops).channels
      = getActiveById (stateAfter ops).channels := by
  have hkeys : (stateAfter ops).channels.map Prod.fst = validChannels :=
    keys_foldl initState ops hchan (by decide)
  have hnd : ((stateAfter ops).channels.map Prod.fst).Nodup := by
    rw [hkeys]
    decide
  have h := filter_values_eq_filterMap_keys (stateAfter ops).channels
    (fun c => c.active) hnd
  rw [getActive, h, hkeys, getActiveById]

/-- C7 witness: activating d3 then d1 still lists actives in identifier
    order. -/
theorem C7_witness :
    getActive
      (stateAfter [Op.evalOp "d3" "bd" 1, Op.evalOp "d1" "sn" 2]).channels
      = getActiveById
          (stateAfter [Op.evalOp "d3" "bd" 1, Op.evalOp "d1" "sn" 2]).channels :=
  C7_getActive_ordered _ (by decide)

/-- C8: hush is idempotent on the Channel State Store — applying it twice
    leaves the store exactly as applying it once, with every channel's
    content empty and active flag false. -/
theorem C8_hush_idempotent (s : ServerState) :
    hushState (hushState s) = hushState s
    ∧ ∀ p ∈ (hushState s).channels, p.2.active = false ∧ p.2.pattern = "" := by
  constructor
  · simp only [hushState]
    rw [hushChannels_idem]
  · intro p hp
    simp only [hushState, hushChannels] at hp
    rcases List.mem_map.mp hp with ⟨q, _, rfl⟩
    exact ⟨rfl, rfl⟩

/-- C9: the file sink replaces the file's entire previous content with
    exactly the generated comment header (tool name, timestamp line) plus
    the single command line: the result is independent of the prior content,
    and whenever prior content exists it is not an append to it. -/
theorem C9_file_sink_full_replace (fileBefore isoNow code : String)
    (hprev : fileBefore ≠ "") :
    writeToTidalFile fileBefore isoNow code
      = "-- TidalCycles MCP Server\n-- Auto-generated at " ++ isoNow
          ++ "\n\n" ++ code ++ "\n"
    ∧ (∀ other : String, writeToTidalFile fileBefore isoNow code
        = writeToTidalFile other isoNow code)
    ∧ writeToTidalFile fileBefore isoNow code
        ≠ fsAppendFile fileBefore (tidalFileContent isoNow code) := by
  refine ⟨rfl, fun other => rfl, fun heq => ?_⟩
  have hl := congrArg String.length heq
  simp only [writeToTidalFile, fsWriteFile, fsAppendFile,
    String.length_append] at hl
  have hlen : fileBefore.length = 0 := by omega
  apply hprev
  cases fileBefore with
  | mk data =>
      cases data with
      | nil => rfl
      | cons c cs => simp [String.length] at hlen

/-- C9 witness: concrete previous content, timestamp and command. -/
theorem C9_witness :
    writeToTidalFile "old content" "2025-01-01T00:00:00.000Z" "d1 $ s \"bd\""
      = "-- TidalCycles MCP Server\n-- Auto-generated at "
          ++ "2025-01-01T00:00:00.000Z" ++ "\n\n" ++ "d1 $ s \"bd\"" ++ "\n" :=
  (C9_file_sink_full_replace "old content" "2025-01-01T00:00:00.000Z"
    "d1 $ s \"bd\"" (by decide)).1

/-- C10: unsolo always submits the fixed command text "unsolo $ d1",
    whatever state the store is in and in particular whichever channel a
    preceding solo targeted, and it leaves the Channel State Store
    unchanged. -/
theorem C10_unsolo_fixed_command (s : ServerState) :
    commandOf Op.unsoloOp = some "unsolo $ d1"
    ∧ applyOp s Op.unsoloOp = s
    ∧ ∀ channel, applyOp (applyOp s (Op.soloOp channel)) Op.unsoloOp
        = applyOp s (Op.soloOp channel) :=
  ⟨rfl, rfl, fun _ => rfl⟩

end Tidal
